import Mathlib

set_option autoImplicit false

/-!
Verification development for the `graphene_mongo` adapter layer
(`graphene_mongo/fields.py` and `graphene_mongo/types.py`).

The Python sources are shallowly embedded: pure functions become Lean
functions, Python lists/querysets become `List`, Python dicts become
association lists (`List (String × _)`), exceptions become `Except`.
External collaborators whose code is not part of this repository
(`graphql_relay.connection_from_list_slice`, graphene's `to_arguments`,
the mongoengine queryset operators) are embedded from their documented
behaviour and marked as such in their doc comments.
-/

namespace GrapheneMongo

/-- Python runtime values that appear as GraphQL call arguments:
integers (pagination counts) and strings (cursors, filter values). -/
inductive PyVal where
  | int (n : Int)
  | str (s : String)
deriving DecidableEq, Repr

/-- A Python keyword-argument dict (`**args`), as an ordered association list. -/
abbrev ArgsDict := List (String × PyVal)

/-- `args.get(key)` on a Python dict. -/
def dictGet (d : ArgsDict) (k : String) : Option PyVal :=
  (d.find? (fun kv => kv.1 == k)).map (fun kv => kv.2)

/-- Python truthiness of an optional argument value (`if after:`):
`None` is falsy, `0` is falsy, the empty string is falsy. -/
def pyTruthy : Option PyVal → Bool
  | none => false
  | some (.int n) => n != 0
  | some (.str s) => !s.isEmpty

/-- Clamp one bound of a Python slice `l[a:b]` to `[0, len]`:
a negative index counts from the end, indices past the end are clamped. -/
def pyBound (len : Nat) (i : Int) : Nat :=
  if i < 0 then ((len : Int) + i).toNat else min i.toNat len

/-- Python list slicing `l[a:b]` with integer bounds. -/
def pySlice {α : Type} (l : List α) (a b : Int) : List α :=
  (l.take (pyBound l.length b)).drop (pyBound l.length a)

/-- `graphql_relay.offset_to_cursor` builds the cursor string
`'arrayconnection:' + str(offset)` (the library then base64-encodes it;
base64 is a bijective encoding, elided here). -/
def offsetToCursor (offset : Int) : String :=
  "arrayconnection:" ++ toString offset

/-- `graphql_relay.cursor_to_offset`: parse the integer back out of a cursor
string, `none` on any malformed cursor (the library returns `None` there). -/
def cursorToOffset (cursor : String) : Option Int :=
  if cursor.startsWith "arrayconnection:" then (cursor.drop 16).toInt? else none

/-- `graphql_relay.get_offset_with_default`: a non-string or unparsable
cursor yields the default offset. -/
def getOffsetWithDefault (cursor : Option PyVal) (defaultOffset : Int) : Int :=
  match cursor with
  | some (.str s) =>
    match cursorToOffset s with
    | some n => n
    | none => defaultOffset
  | _ => defaultOffset

/-- One edge of the connection protocol: a node plus its cursor. -/
structure Edge (α : Type) where
  node : α
  cursor : String
deriving DecidableEq, Repr

/-- `graphene.relay.connection.PageInfo`. -/
structure PageInfo where
  startCursor : Option String
  endCursor : Option String
  hasPreviousPage : Bool
  hasNextPage : Bool
deriving DecidableEq, Repr

/-- The bare connection value returned by `connection_from_list_slice`
(before `connection_resolver` attaches `iterable` and `length`). -/
structure Conn (α : Type) where
  edges : List (Edge α)
  pageInfo : PageInfo
deriving DecidableEq, Repr

/-- `graphql_relay.connection.arrayconnection.connection_from_list_slice`,
an external collaborator (not part of this repository's sources), embedded
from its standard upstream implementation: compute start/end offsets from
`after`/`before`/`first`/`last`, slice the supplied list accordingly, and
report `hasPreviousPage`/`hasNextPage` against the slice bounds. -/
def connection_from_list_slice {α : Type} (listSlice : List α) (args : ArgsDict)
    (sliceStart : Int) (listLength : Int) (listSliceLength : Int) : Conn α :=
  let before := dictGet args "before"
  let after := dictGet args "after"
  let first := dictGet args "first"
  let last := dictGet args "last"
  let sliceEnd := sliceStart + listSliceLength
  let beforeOffset := getOffsetWithDefault before listLength
  let afterOffset := getOffsetWithDefault after (-1)
  let startOffset := max (max (sliceStart - 1) afterOffset) (-1) + 1
  let endOffset := min (min sliceEnd beforeOffset) listLength
  let endOffset :=
    match first with
    | some (.int f) => min endOffset (startOffset + f)
    | _ => endOffset
  let startOffset :=
    match last with
    | some (.int l) => max startOffset (endOffset - l)
    | _ => startOffset
  let slice := pySlice listSlice (max (startOffset - sliceStart) 0)
    (listSliceLength - (sliceEnd - endOffset))
  let edges := slice.enum.map (fun p => Edge.mk p.2 (offsetToCursor (startOffset + (p.1 : Int))))
  let firstEdgeCursor := edges.head?.map Edge.cursor
  let lastEdgeCursor := edges.getLast?.map Edge.cursor
  let lowerBound := if pyTruthy after then afterOffset + 1 else 0
  let upperBound := if pyTruthy before then beforeOffset else listLength
  { edges := edges
    pageInfo :=
      { startCursor := firstEdgeCursor
        endCursor := lastEdgeCursor
        hasPreviousPage :=
          (match last with | some (.int _) => true | _ => false) && decide (lowerBound < startOffset)
        hasNextPage :=
          (match first with | some (.int _) => true | _ => false) && decide (endOffset < upperBound) } }

/-- The store-layer model collaborator (spec §6): `objects` is the full
collection, `fieldVal` reads a named attribute of a document so that
mongoengine's `filter(**args)` equality predicates can be evaluated. -/
structure MModel (α : Type) where
  objects : List α
  fieldVal : α → String → PyVal

/-- `MongoengineConnectionField.get_query` (fields.py): filter the model's
collection by the caller's keyword arguments when there are any. -/
def get_query {α : Type} (model : MModel α) (args : ArgsDict) : List α :=
  if args.isEmpty then model.objects
  else model.objects.filter (fun doc => args.all (fun kv => model.fieldVal doc kv.1 == kv.2))

/-- `MongoengineConnectionField.merge_querysets` (fields.py):
`queryset & default_queryset`. The `&` operator is the store collaborator's.
Modelled from the spec: set intersection semantics (both must match). -/
def merge_querysets {α : Type} [DecidableEq α] (default_queryset queryset : List α) : List α :=
  queryset.inter default_queryset

/-- The connection envelope as `connection_resolver` returns it: the
protocol fields plus the raw `iterable` and its `length` attached after
construction. -/
structure ConnectionEnvelope (α : Type) where
  edges : List (Edge α)
  pageInfo : PageInfo
  iterable : List α
  length : Nat
deriving DecidableEq, Repr

/-- `MongoengineConnectionField.connection_resolver` (fields.py): call the
upstream resolver; on an empty/falsy result fall back to `get_query`;
compute the length; slice the whole materialized result with
`slice_start=0`, `list_length=list_slice_length=len(iterable)`; attach the
iterable and its length to the returned connection. -/
def connection_resolver {α : Type} (resolver : ArgsDict → List α) (model : MModel α)
    (args : ArgsDict) : ConnectionEnvelope α :=
  let iterable := resolver args
  let iterable := if iterable.isEmpty then get_query model args else iterable
  let len := iterable.length
  let conn := connection_from_list_slice iterable args 0 (len : Int) (len : Int)
  { edges := conn.edges
    pageInfo := conn.pageInfo
    iterable := iterable
    length := len }

/-- A field of a built object type as `default_filter_args` sees it: graphene
mounts the converted value as a `Field`; `nestedType = some t` models a value
carrying a `_type` attribute whose `_of_type()` instantiation is `t`
(the derived scalar filter type), `none` models a value without one. -/
structure ConvertedField where
  nestedType : Option String
deriving DecidableEq, Repr

/-- `construct_fields` (types.py): walk the model's ordered field mapping
(supplied by `get_model_fields`, a utils helper outside `src/`, per spec §6),
skip a field when `only_fields` is non-empty and does not name it, or when
`exclude_fields` names it; convert the rest (the converter, outside `src/`,
is abstracted as a function returning `none` for unsupported kinds) and keep
the conversions that produced a field. -/
def construct_fields {F C : Type} (modelFields : List (String × F)) (convert : F → Option C)
    (only_fields exclude_fields : List String) : List (String × C) :=
  modelFields.filterMap (fun nf =>
    if (!only_fields.isEmpty && !(only_fields.contains nf.1)) || exclude_fields.contains nf.1
    then none
    else (convert nf.2).map (fun c => (nf.1, c)))

/-- Python dict update `r.update({k: v})` on an ordered association list:
overwrite in place when the key is present, append otherwise. -/
def dictUpdate {β : Type} (d : List (String × β)) (k : String) (v : β) : List (String × β) :=
  if d.any (fun kv => kv.1 == k) then d.map (fun kv => if kv.1 == k then (k, v) else kv)
  else d ++ [(k, v)]

/-- One step of the `reduce` in `default_filter_args`:
`r.update({name: field._type._of_type()}) or r if hasattr(field, '_type') else r`. -/
def dfaStep (r : List (String × String)) (kv : String × ConvertedField) : List (String × String) :=
  match kv.2.nestedType with
  | some t => dictUpdate r kv.1 t
  | none => r

/-- `MongoengineConnectionField.default_filter_args` (fields.py): reduce over
the type's fields, adding `name ↦ field._type._of_type()` for every field
value that has a `_type` attribute. -/
def default_filter_args (fields : List (String × ConvertedField)) : List (String × String) :=
  fields.foldl dfaStep []

/-- Membership in `construct_fields`: the name survives the only/exclude
filters and the converter produces the field. -/
theorem mem_construct_fields {F C : Type} (mf : List (String × F)) (convert : F → Option C)
    (onlyF exclF : List String) (name : String) (c : C) :
    (name, c) ∈ construct_fields mf convert onlyF exclF ↔
      (∃ f, (name, f) ∈ mf ∧ convert f = some c)
      ∧ (onlyF = [] ∨ name ∈ onlyF) ∧ name ∉ exclF := by
  have hcond : ∀ n : String,
      (((!onlyF.isEmpty && !(onlyF.contains n)) || exclF.contains n) = false) ↔
        ((onlyF = [] ∨ n ∈ onlyF) ∧ n ∉ exclF) := by
    intro n
    simp [List.isEmpty_iff]
    tauto
  simp only [construct_fields, List.mem_filterMap]
  constructor
  · rintro ⟨⟨n, f⟩, hmem, hfn⟩
    dsimp only at hfn
    cases hb : ((!onlyF.isEmpty && !(onlyF.contains n)) || exclF.contains n) with
    | true =>
      rw [hb] at hfn
      simp at hfn
    | false =>
      rw [hb] at hfn
      simp only [Bool.false_eq_true, if_false, Option.map_eq_some'] at hfn
      obtain ⟨a, ha, heq⟩ := hfn
      have hn : n = name := congrArg Prod.fst heq
      have hc : a = c := congrArg Prod.snd heq
      subst hn
      subst hc
      have hp := (hcond n).mp hb
      exact ⟨⟨f, hmem, ha⟩, hp.1, hp.2⟩
  · rintro ⟨⟨f, hmem, hconv⟩, honly, hexcl⟩
    refine ⟨(name, f), hmem, ?_⟩
    dsimp only
    rw [(hcond name).mpr ⟨honly, hexcl⟩]
    simp [hconv]

/-- With no only/exclude filters, `construct_fields` is exactly the
converter mapped over the model's fields. -/
theorem construct_fields_nil_nil {F C : Type} (mf : List (String × F))
    (convert : F → Option C) :
    construct_fields mf convert [] [] =
      mf.filterMap (fun nf => (convert nf.2).map (fun c => (nf.1, c))) := by
  simp [construct_fields]

/-- The kept fields plus the unsupported fields account for the whole model. -/
theorem length_add_unsupported {F C : Type} (mf : List (String × F))
    (convert : F → Option C) :
    (construct_fields mf convert [] []).length
      + (mf.filter (fun nf => (convert nf.2).isNone)).length = mf.length := by
  rw [construct_fields_nil_nil]
  induction mf with
  | nil => rfl
  | cons x xs ih =>
    cases h : convert x.2 <;>
      simp [List.filterMap_cons, List.filter_cons, h] <;> omega

/-- In an association list with nodup keys, a key determines its value. -/
theorem keys_nodup_mem_eq {β : Type} :
    ∀ (l : List (String × β)), (l.map Prod.fst).Nodup →
      ∀ (k : String) (a b : β), (k, a) ∈ l → (k, b) ∈ l → a = b := by
  intro l
  induction l with
  | nil =>
    intro _ k a b ha _
    exact absurd ha (by simp)
  | cons x xs ih =>
    intro hnd k a b ha hb
    simp only [List.map_cons, List.nodup_cons] at hnd
    rcases List.mem_cons.mp ha with ha1 | ha2 <;> rcases List.mem_cons.mp hb with hb1 | hb2
    · exact congrArg Prod.snd (ha1.trans hb1.symm)
    · exfalso
      apply hnd.1
      have : x.1 = k := congrArg Prod.fst ha1.symm
      rw [this]
      exact List.mem_map_of_mem Prod.fst hb2
    · exfalso
      apply hnd.1
      have : x.1 = k := congrArg Prod.fst hb1.symm
      rw [this]
      exact List.mem_map_of_mem Prod.fst ha2
    · exact ih hnd.2 k a b ha2 hb2

/-- `dictUpdate` introduces no key other than the updated one. -/
theorem keys_dictUpdate {β : Type} (d : List (String × β)) (k : String) (v : β) (x : String)
    (hx : x ∈ (dictUpdate d k v).map Prod.fst) : x ∈ d.map Prod.fst ∨ x = k := by
  unfold dictUpdate at hx
  by_cases hany : d.any (fun kv => kv.1 == k) = true
  · rw [if_pos hany] at hx
    simp only [List.map_map, List.mem_map, Function.comp] at hx
    obtain ⟨kv, hkv, hfst⟩ := hx
    by_cases hk : (kv.1 == k) = true
    · right
      rw [if_pos hk] at hfst
      exact hfst.symm
    · left
      rw [if_neg hk] at hfst
      rw [List.mem_map]
      exact ⟨kv, hkv, hfst⟩
  · rw [if_neg hany] at hx
    simp only [List.map_append, List.mem_append, List.map_cons, List.map_nil,
      List.mem_cons, List.not_mem_nil, or_false] at hx
    rcases hx with h | h
    · exact Or.inl h
    · exact Or.inr h

/-- Keys of the filter-argument fold all come from the accumulator or the
fields walked over. -/
theorem keys_dfa_foldl :
    ∀ (fs : List (String × ConvertedField)) (acc : List (String × String)) (x : String),
      x ∈ (fs.foldl dfaStep acc).map Prod.fst →
        x ∈ acc.map Prod.fst ∨ x ∈ fs.map Prod.fst := by
  intro fs
  induction fs with
  | nil =>
    intro acc x hx
    exact Or.inl hx
  | cons kv fs ih =>
    intro acc x hx
    rw [List.foldl_cons] at hx
    rcases ih (dfaStep acc kv) x hx with h | h
    · unfold dfaStep at h
      cases hn : kv.2.nestedType with
      | none =>
        rw [hn] at h
        exact Or.inl h
      | some t =>
        rw [hn] at h
        rcases keys_dictUpdate acc kv.1 t x h with h2 | h2
        · exact Or.inl h2
        · exact Or.inr (by simp [h2])
    · exact Or.inr (by simp [h])

/-- Every key of the derived filter-argument table names one of the
converted fields. -/
theorem keys_default_filter_args (fields : List (String × ConvertedField)) (x : String)
    (hx : x ∈ (default_filter_args fields).map Prod.fst) : x ∈ fields.map Prod.fst := by
  rcases keys_dfa_foldl fields [] x hx with h | h
  · exact absurd h (by simp)
  · exact h

/-- C3: during object-type building, a field named outside a non-empty
`only_fields` is excluded, a field named in `exclude_fields` is excluded
even when `only_fields` also names it (exclusion wins), and every
remaining field is passed to the converter, being kept exactly when the
converter yields a field. -/
theorem construct_fields_filtering_rules :
    (∀ {F C : Type} (mf : List (String × F)) (convert : F → Option C)
        (onlyF exclF : List String) (name : String) (c : C),
      (name, c) ∈ construct_fields mf convert onlyF exclF ↔
        (∃ f, (name, f) ∈ mf ∧ convert f = some c)
        ∧ (onlyF = [] ∨ name ∈ onlyF) ∧ name ∉ exclF)
    ∧ (∀ {F C : Type} (mf : List (String × F)) (convert : F → Option C)
        (onlyF exclF : List String) (name : String) (c : C),
      name ∈ exclF → (name, c) ∉ construct_fields mf convert onlyF exclF) := by
  refine ⟨fun mf convert onlyF exclF name c => mem_construct_fields mf convert onlyF exclF name c,
    ?_⟩
  intro F C mf convert onlyF exclF name c hexcl hmem
  exact ((mem_construct_fields mf convert onlyF exclF name c).mp hmem).2.2 hexcl

/-- Witness for C3: a field named in both `only_fields` and `exclude_fields`
is excluded. -/
theorem construct_fields_filtering_rules_witness :
    ("a", 0) ∉ construct_fields [("a", 0), ("b", 1)] (fun n : Nat => some n) ["a"] ["a"] :=
  construct_fields_filtering_rules.2 [("a", 0), ("b", 1)] (fun n => some n) ["a"] ["a"] "a" 0
    (by decide)

/-- C4: with no only/exclude filters, building keeps exactly the N−K
supported fields (the converter yielding `none` is skipped, never an
error), and no unsupported field name reaches the derived filter-argument
table. -/
theorem construct_fields_skips_unsupported_silently :
    ∀ {F : Type} (mf : List (String × F)) (convert : F → Option ConvertedField),
      (construct_fields mf convert [] []).length
          = mf.length - (mf.filter (fun nf => (convert nf.2).isNone)).length
      ∧ ((mf.map Prod.fst).Nodup →
          ∀ (name : String) (f : F), (name, f) ∈ mf → convert f = none →
            name ∉ (construct_fields mf convert [] []).map Prod.fst
            ∧ name ∉ (default_filter_args (construct_fields mf convert [] [])).map Prod.fst) := by
  intro F mf convert
  constructor
  · have := length_add_unsupported mf convert
    omega
  · intro hnd name f hmem hnone
    have hkey : name ∉ (construct_fields mf convert [] []).map Prod.fst := by
      intro hk
      rw [List.mem_map] at hk
      obtain ⟨⟨n, c⟩, hc, hfst⟩ := hk
      have hn : n = name := hfst
      subst hn
      obtain ⟨⟨f2, hf2, hconv2⟩, -, -⟩ := (mem_construct_fields mf convert [] [] n c).mp hc
      have hf : f2 = f := keys_nodup_mem_eq mf hnd n f2 f hf2 hmem
      rw [hf, hnone] at hconv2
      exact absurd hconv2 (by simp)
    exact ⟨hkey, fun hk => hkey (keys_default_filter_args _ name hk)⟩

/-- Witness for C4: a 2-field model with 1 unsupported field yields 1 built
field, and the unsupported name is absent from the field set and the
filter-argument table. -/
theorem construct_fields_skips_unsupported_silently_witness :
    (construct_fields [("a", true), ("b", false)]
        (fun s => if s then some (ConvertedField.mk (some "String")) else none) [] []).length = 1
    ∧ "b" ∉ (construct_fields [("a", true), ("b", false)]
        (fun s => if s then some (ConvertedField.mk (some "String")) else none) [] []).map Prod.fst
    ∧ "b" ∉ (default_filter_args (construct_fields [("a", true), ("b", false)]
        (fun s => if s then some (ConvertedField.mk (some "String")) else none) [] [])).map
          Prod.fst := by
  have h := construct_fields_skips_unsupported_silently [("a", true), ("b", false)]
    (fun s => if s then some (ConvertedField.mk (some "String")) else none)
  have h2 := h.2 (by decide) "b" false (by decide) rfl
  exact ⟨h.1, h2.1, h2.2⟩

/-- An arbitrary Python object supplied as the `registry` meta argument;
`isRegistry` records `isinstance(·, Registry)` (registry.py is outside
`src/`; only this check matters to the builder). A non-`None` object is
truthy, so supplying one skips the global-registry fallback. -/
structure RegistryObj where
  isRegistry : Bool
deriving DecidableEq, Repr

/-- The process-wide default returned by `get_global_registry`; it is an
instance of `Registry`. -/
def globalRegistry : RegistryObj := ⟨true⟩

/-- A Python class supplied as a `connection` or `connection_class` meta
argument; `subclassOfConnection` records `issubclass(·, Connection)`. -/
structure PyConnClass where
  subclassOfConnection : Bool
deriving DecidableEq, Repr

/-- `graphene.relay.Connection` itself. -/
def ConnectionBase : PyConnClass := ⟨true⟩

/-- `connection_class.create_type('{Name}Connection', node=cls)` declares a
subclass of `connection_class`, so the created type is a subclass of
`Connection` exactly when `connection_class` is. -/
def createType (cc : PyConnClass) : PyConnClass := ⟨cc.subclassOfConnection⟩

/-- An interface supplied in `Meta.interfaces`; `isNodeSubclass` records
`issubclass(·, Node)`. -/
structure Iface where
  isNodeSubclass : Bool
deriving DecidableEq, Repr

/-- The inputs of `MongoengineObjectType.__init_subclass_with_meta__`
(types.py): `modelValid` is the outcome of `is_valid_mongoengine_model`
(utils.py, outside `src/`), `modelFields` is the model's ordered field
mapping, and the remaining fields are the Meta arguments. -/
structure BuildInput (F : Type) where
  modelValid : Bool
  modelFields : List (String × F)
  registry : Option RegistryObj
  skip_registry : Bool
  only_fields : List String
  exclude_fields : List String
  filter_fields : Option (List String)
  connection : Option PyConnClass
  connection_class : Option PyConnClass
  use_connection : Option Bool
  interfaces : List Iface

/-- `MongoengineObjectTypeOptions` (types.py): the `_meta` the builder
fills in. -/
structure MongoengineObjectTypeOptions where
  registry : RegistryObj
  fields : List (String × ConvertedField)
  filter_fields : Option (List String)
  connection : Option PyConnClass
deriving DecidableEq, Repr

/-- The assertion failures `__init_subclass_with_meta__` can raise. -/
inductive BuildError where
  | invalidModel
  | invalidRegistry
  | invalidConnection
deriving DecidableEq, Repr

/-- The `use_connection`/auto-connection block of
`__init_subclass_with_meta__` (types.py): when `use_connection` is `None`
and interfaces are supplied, derive it from whether any interface is a
`Node` subclass; when a connection is called for and none was supplied,
synthesize one from `connection_class` (defaulting to `Connection`). The
result is the connection the builder goes on to check. -/
def effective_connection {F : Type} (inp : BuildInput F) : Option PyConnClass :=
  let use_connection :=
    match inp.use_connection with
    | none =>
      if !inp.interfaces.isEmpty then some (inp.interfaces.any (fun i => i.isNodeSubclass))
      else none
    | some b => some b
  if use_connection.getD false && inp.connection.isNone then
    some (createType (inp.connection_class.getD ConnectionBase))
  else inp.connection

/-- `MongoengineObjectType.__init_subclass_with_meta__` (types.py): assert
the model is a valid mongoengine model; fall back to the global registry
when none is supplied and assert the registry is a `Registry`; construct
the fields; resolve the connection (see `effective_connection`) and assert
it subclasses `Connection` when present; fill in the `_meta` options.
(The final `registry.register(cls)` side effect on the shared registry is
outside the returned value.) -/
def initSubclassWithMeta {F : Type} (inp : BuildInput F)
    (convert : F → Option ConvertedField) :
    Except BuildError MongoengineObjectTypeOptions :=
  if !inp.modelValid then .error .invalidModel
  else
    let registry :=
      match inp.registry with
      | none => globalRegistry
      | some r => r
    if !registry.isRegistry then .error .invalidRegistry
    else
      let mongoengine_fields :=
        construct_fields inp.modelFields convert inp.only_fields inp.exclude_fields
      match effective_connection inp with
      | some c =>
        if !c.subclassOfConnection then .error .invalidConnection
        else .ok ⟨registry, mongoengine_fields, inp.filter_fields, some c⟩
      | none => .ok ⟨registry, mongoengine_fields, inp.filter_fields, none⟩

/-- C5: object-type building fails exactly when the model is not a valid
mongoengine model, or a supplied registry is not a `Registry` instance, or
the (supplied or synthesized) connection type is not a `Connection`
subclass; otherwise it completes without error. -/
theorem initSubclassWithMeta_error_iff :
    ∀ {F : Type} (inp : BuildInput F) (convert : F → Option ConvertedField),
      (∃ e, initSubclassWithMeta inp convert = Except.error e) ↔
        (inp.modelValid = false
          ∨ (∃ r, inp.registry = some r ∧ r.isRegistry = false)
          ∨ (∃ c, effective_connection inp = some c ∧ c.subclassOfConnection = false)) := by
  intro F inp convert
  cases hm : inp.modelValid with
  | false => simp [initSubclassWithMeta, hm]
  | true =>
    cases hr : inp.registry with
    | none =>
      cases hec : effective_connection inp with
      | none => simp [initSubclassWithMeta, hm, hr, hec, globalRegistry]
      | some c =>
        cases hsc : c.subclassOfConnection with
        | false => simp [initSubclassWithMeta, hm, hr, hec, hsc, globalRegistry]
        | true => simp [initSubclassWithMeta, hm, hr, hec, hsc, globalRegistry]
    | some r =>
      cases hri : r.isRegistry with
      | false => simp [initSubclassWithMeta, hm, hr, hri]
      | true =>
        cases hec : effective_connection inp with
        | none => simp [initSubclassWithMeta, hm, hr, hri, hec]
        | some c =>
          cases hsc : c.subclassOfConnection with
          | false => simp [initSubclassWithMeta, hm, hr, hri, hec, hsc]
          | true => simp [initSubclassWithMeta, hm, hr, hri, hec, hsc]

/-- A Python class for the runtime type check: `id` identifies it and `mro`
lists the ids of itself and all its superclasses. -/
structure PyType where
  id : Nat
  mro : List Nat
deriving DecidableEq, Repr

/-- A Python runtime value, abstracted to its type. -/
structure PyObj where
  ty : PyType
deriving DecidableEq, Repr

/-- Python `isinstance(o, c)`. -/
def isinstance (o : PyObj) (c : PyType) : Bool := o.ty.mro.contains c.id

/-- `MongoengineObjectType.is_type_of` (types.py): `cls` is the built object
type, `model` is `cls._meta.model`, `is_valid` abstracts
`is_valid_mongoengine_model` (utils.py, outside `src/`); an incompatible
instance raises. -/
def is_type_of (cls model : PyType) (is_valid : PyType → Bool) (root : PyObj) :
    Except String Bool :=
  if isinstance root cls then .ok true
  else if !is_valid root.ty then .error "Received incompatible instance"
  else .ok (isinstance root model)

/-- C6: `is_type_of` returns true for an instance of the exact type; raises
when the value's type is not a recognized model type; otherwise answers
whether the value is an instance of the bound model. -/
theorem is_type_of_trichotomy :
    ∀ (cls model : PyType) (is_valid : PyType → Bool) (root : PyObj),
      (isinstance root cls = true → is_type_of cls model is_valid root = Except.ok true)
      ∧ (isinstance root cls = false → is_valid root.ty = false →
          ∃ msg, is_type_of cls model is_valid root = Except.error msg)
      ∧ (isinstance root cls = false → is_valid root.ty = true →
          is_type_of cls model is_valid root = Except.ok (isinstance root model)) := by
  intro cls model is_valid root
  refine ⟨fun h => by simp [is_type_of, h], fun h1 h2 => ?_, fun h1 h2 => ?_⟩
  · exact ⟨"Received incompatible instance", by simp [is_type_of, h1, h2]⟩
  · simp [is_type_of, h1, h2]

/-- Witness for C6 on three concrete runtime values: an instance of the
type itself, a non-model value, and an instance of the bound model. -/
theorem is_type_of_trichotomy_witness :
    is_type_of ⟨0, [0]⟩ ⟨1, [1]⟩ (fun t => t.id == 1) ⟨⟨0, [0]⟩⟩ = Except.ok true
    ∧ (∃ msg, is_type_of ⟨0, [0]⟩ ⟨1, [1]⟩ (fun t => t.id == 1) ⟨⟨2, [2]⟩⟩ = Except.error msg)
    ∧ is_type_of ⟨0, [0]⟩ ⟨1, [1]⟩ (fun t => t.id == 1) ⟨⟨1, [1]⟩⟩
        = Except.ok (isinstance ⟨⟨1, [1]⟩⟩ ⟨1, [1]⟩) :=
  ⟨(is_type_of_trichotomy ⟨0, [0]⟩ ⟨1, [1]⟩ (fun t => t.id == 1) ⟨⟨0, [0]⟩⟩).1 (by decide),
   (is_type_of_trichotomy ⟨0, [0]⟩ ⟨1, [1]⟩ (fun t => t.id == 1) ⟨⟨2, [2]⟩⟩).2.1 (by decide)
     (by decide),
   (is_type_of_trichotomy ⟨0, [0]⟩ ⟨1, [1]⟩ (fun t => t.id == 1) ⟨⟨1, [1]⟩⟩).2.2 (by decide)
     (by decide)⟩

/-- A model instance's primary identifier: integer or string. -/
inductive PrimaryId where
  | int (n : Int)
  | str (s : String)
deriving DecidableEq, Repr

/-- Python `str(...)` on a primary identifier. -/
def pyStr : PrimaryId → String
  | .int n => toString n
  | .str s => s

/-- A model instance, abstracted to its primary identifier attribute. -/
structure ModelInstance where
  id : PrimaryId
deriving DecidableEq, Repr

/-- `MongoengineObjectType.resolve_id` (types.py): `str(self.id)`. -/
def resolve_id (self : ModelInstance) : String := pyStr self.id

/-- C7: `resolve_id` is the primary identifier coerced to a string, for
both integer and string identifiers. -/
theorem resolve_id_is_str_of_id :
    (∀ inst : ModelInstance, resolve_id inst = pyStr inst.id)
    ∧ (∀ n : Int, resolve_id ⟨PrimaryId.int n⟩ = toString n)
    ∧ (∀ s : String, resolve_id ⟨PrimaryId.str s⟩ = s) :=
  ⟨fun _ => rfl, fun _ => rfl, fun _ => rfl⟩

/-- `MongoengineConnectionField.default_filter_args` reads
`self.fields = self._type._meta.fields`, so as a function of the bound
type's `_meta` it depends on the fields alone. -/
def connection_field_filter_args (meta : MongoengineObjectTypeOptions) :
    List (String × String) :=
  default_filter_args meta.fields

/-- Modelled from the spec: graphene's `to_arguments` is an external
dependency whose sources are not part of this repository; per the spec,
the field's arguments are the filter-argument table merged with the
explicitly declared base arguments, the declared base arguments taking
precedence on a name collision. -/
def to_arguments (args extra_args : List (String × String)) : List (String × String) :=
  args ++ extra_args.filter (fun kv => !(args.any (fun kv2 => kv2.1 == kv.1)))

/-- `MongoengineConnectionField.args` (fields.py):
`to_arguments(self._base_args or OrderedDict(), self.default_filter_args)`. -/
def connection_field_args (base_args : Option (List (String × String)))
    (meta : MongoengineObjectTypeOptions) : List (String × String) :=
  to_arguments (base_args.getD []) (connection_field_filter_args meta)

/-- Filtering by a predicate weaker than the search predicate does not
change what `find?` returns. -/
theorem find?_filter_of_imp {α : Type} (l : List α) (p q : α → Bool)
    (h : ∀ x, p x = true → q x = true) : (l.filter q).find? p = l.find? p := by
  induction l with
  | nil => rfl
  | cons x xs ih =>
    by_cases hp : p x = true
    · rw [List.filter_cons_of_pos (h x hp)]
      rw [List.find?_cons_of_pos _ hp, List.find?_cons_of_pos _ hp]
    · cases hq : q x with
      | true =>
        rw [List.filter_cons_of_pos hq]
        rw [List.find?_cons_of_neg _ hp, List.find?_cons_of_neg _ hp]
        exact ih
      | false =>
        rw [List.filter_cons_of_neg (by simp [hq])]
        rw [List.find?_cons_of_neg _ hp]
        exact ih

/-- C8: the arguments a connection field accepts are exactly the derived
filter-argument table merged with the declared base arguments, the base
arguments winning on a name collision: lookup prefers the base entry, and
the accepted names are exactly the union of the two name sets. -/
theorem connection_field_args_merge :
    ∀ (base : List (String × String)) (meta : MongoengineObjectTypeOptions) (name : String),
      (connection_field_args (some base) meta).find? (fun kv => kv.1 == name)
          = ((base.find? (fun kv => kv.1 == name)).or
              ((connection_field_filter_args meta).find? (fun kv => kv.1 == name)))
      ∧ (name ∈ (connection_field_args (some base) meta).map Prod.fst ↔
          name ∈ base.map Prod.fst
          ∨ name ∈ (connection_field_filter_args meta).map Prod.fst) := by
  intro base meta name
  constructor
  · unfold connection_field_args to_arguments
    rw [Option.getD_some, List.find?_append]
    cases hb : base.find? (fun kv => kv.1 == name) with
    | some v => rfl
    | none =>
      rw [Option.none_or, Option.none_or]
      apply find?_filter_of_imp
      intro kv hp
      have hname : kv.1 = name := by simpa using hp
      rw [Bool.not_eq_true', List.any_eq_false]
      intro kv2 hkv2
      rw [Bool.not_eq_true, beq_eq_false_iff_ne]
      intro heq
      have hnone := List.find?_eq_none.mp hb kv2 hkv2
      apply hnone
      simp [heq, hname]
  · unfold connection_field_args to_arguments
    rw [Option.getD_some]
    constructor
    · intro h
      rw [List.map_append, List.mem_append] at h
      rcases h with h | h
      · exact Or.inl h
      · right
        rw [List.mem_map] at h ⊢
        obtain ⟨kv, hkv, hx⟩ := h
        exact ⟨kv, List.mem_of_mem_filter hkv, hx⟩
    · intro h
      rw [List.map_append, List.mem_append]
      by_cases hbase : name ∈ base.map Prod.fst
      · exact Or.inl hbase
      · rcases h with h | h
        · exact Or.inl h
        · right
          rw [List.mem_map] at h ⊢
          obtain ⟨kv, hkv, hx⟩ := h
          refine ⟨kv, ?_, hx⟩
          rw [List.mem_filter]
          refine ⟨hkv, ?_⟩
          rw [Bool.not_eq_true', List.any_eq_false]
          intro kv2 hkv2
          rw [Bool.not_eq_true, beq_eq_false_iff_ne]
          intro heq
          apply hbase
          rw [List.mem_map]
          exact ⟨kv2, hkv2, heq.trans hx⟩

/-- C9: `merge_querysets` has set-intersection semantics: an element is in
the merge exactly when it is in both the caller-resolved queryset and the
default queryset. -/
theorem merge_querysets_is_intersection :
    ∀ {α : Type} [DecidableEq α] (default_queryset queryset : List α) (x : α),
      x ∈ merge_querysets default_queryset queryset ↔
        x ∈ queryset ∧ x ∈ default_queryset := by
  intro α _ default_queryset queryset x
  exact List.mem_inter_iff

/-- When the key is absent, `dictUpdate` appends the binding. -/
theorem dictUpdate_of_not_mem {β : Type} (d : List (String × β)) (k : String) (v : β)
    (h : ∀ kv ∈ d, kv.1 ≠ k) : dictUpdate d k v = d ++ [(k, v)] := by
  unfold dictUpdate
  rw [if_neg]
  intro hany
  rw [List.any_eq_true] at hany
  obtain ⟨kv, hkv, heq⟩ := hany
  exact h kv hkv (by simpa using heq)

/-- With nodup keys disjoint from the accumulator, the filter-argument fold
appends one entry per field carrying a nested type, in field order. -/
theorem dfa_foldl_eq_filterMap :
    ∀ (fs : List (String × ConvertedField)) (acc : List (String × String)),
      (∀ kv ∈ fs, ∀ kv2 ∈ acc, kv.1 ≠ kv2.1) → (fs.map Prod.fst).Nodup →
      fs.foldl dfaStep acc
        = acc ++ fs.filterMap (fun kv => kv.2.nestedType.map (fun t => (kv.1, t))) := by
  intro fs
  induction fs with
  | nil =>
    intro acc _ _
    simp
  | cons kv fs ih =>
    intro acc hdisj hnd
    simp only [List.map_cons, List.nodup_cons] at hnd
    rw [List.foldl_cons]
    cases hn : kv.2.nestedType with
    | none =>
      have hstep : dfaStep acc kv = acc := by
        unfold dfaStep
        rw [hn]
      rw [hstep, ih acc (fun kv2 h2 => hdisj kv2 (List.mem_cons_of_mem _ h2)) hnd.2]
      simp [List.filterMap_cons, hn]
    | some t =>
      have hstep : dfaStep acc kv = acc ++ [(kv.1, t)] := by
        unfold dfaStep
        rw [hn]
        exact dictUpdate_of_not_mem acc kv.1 t
          (fun kv2 h2 => (hdisj kv (List.mem_cons_self kv fs) kv2 h2).symm)
      rw [hstep, ih (acc ++ [(kv.1, t)]) ?_ hnd.2]
      · simp [List.filterMap_cons, hn]
      · intro kv2 h2 kv3 h3
        rw [List.mem_append] at h3
        rcases h3 with h3 | h3
        · exact hdisj kv2 (List.mem_cons_of_mem _ h2) kv3 h3
        · have hkv3 : kv3 = (kv.1, t) := by simpa using h3
          rw [hkv3]
          intro heq
          apply hnd.1
          rw [← heq]
          exact List.mem_map_of_mem Prod.fst h2

/-- Under nodup field names, the filter-argument table is the fields'
nested types, keyed by field name. -/
theorem default_filter_args_eq_filterMap (fields : List (String × ConvertedField))
    (hnd : (fields.map Prod.fst).Nodup) :
    default_filter_args fields
      = fields.filterMap (fun kv => kv.2.nestedType.map (fun t => (kv.1, t))) := by
  unfold default_filter_args
  rw [dfa_foldl_eq_filterMap fields [] (by simp) hnd]
  simp

/-- C10: `filter_fields` never enters the derived filter-argument table:
the table is a function of the converted fields alone, and it has an entry
for every converted field carrying a nested type, whatever `filter_fields`
holds. -/
theorem filter_fields_unused_in_filter_args :
    (∀ (m m2 : MongoengineObjectTypeOptions), m.fields = m2.fields →
        connection_field_filter_args m = connection_field_filter_args m2)
    ∧ (∀ (meta : MongoengineObjectTypeOptions) (name t : String),
        (meta.fields.map Prod.fst).Nodup →
        (name, ConvertedField.mk (some t)) ∈ meta.fields →
        (name, t) ∈ connection_field_filter_args meta) := by
  constructor
  · intro m m2 h
    unfold connection_field_filter_args
    rw [h]
  · intro meta name t hnd hmem
    unfold connection_field_filter_args
    rw [default_filter_args_eq_filterMap meta.fields hnd, List.mem_filterMap]
    exact ⟨(name, ConvertedField.mk (some t)), hmem, rfl⟩

/-- Witness for C10: two metas sharing fields but with different
`filter_fields` derive the same table, and a field carrying a nested type
appears in it despite an empty `filter_fields` whitelist. -/
theorem filter_fields_unused_in_filter_args_witness :
    connection_field_filter_args
        ⟨globalRegistry, [("name", ConvertedField.mk (some "String"))], none, none⟩
      = connection_field_filter_args
        ⟨globalRegistry, [("name", ConvertedField.mk (some "String"))], some ["other"], none⟩
    ∧ ("name", "String") ∈ connection_field_filter_args
        ⟨globalRegistry, [("name", ConvertedField.mk (some "String"))], some [], none⟩ :=
  ⟨filter_fields_unused_in_filter_args.1
      ⟨globalRegistry, [("name", ConvertedField.mk (some "String"))], none, none⟩
      ⟨globalRegistry, [("name", ConvertedField.mk (some "String"))], some ["other"], none⟩ rfl,
   filter_fields_unused_in_filter_args.2
      ⟨globalRegistry, [("name", ConvertedField.mk (some "String"))], some [], none⟩
      "name" "String" (by decide) (by decide)⟩

/-- A two-document editor collection used as a concrete test fixture. -/
def editorsModel : MModel String :=
  { objects := ["Penny Hardaway", "Grant Hill"]
    fieldVal := fun doc _ => PyVal.str doc }

/-- C1: `connection_resolver` always builds the envelope by slicing the
entire materialized result with `slice_start = 0` and
`list_length = list_slice_length = len(result)`, and attaches the raw
iterable and its length to the envelope; in particular, a 2-element result
set with no pagination arguments yields exactly 2 edges,
`hasNextPage = false`, `hasPreviousPage = false`, and `length = 2`. -/
theorem connection_resolver_full_slice_envelope :
    (∀ (α : Type) (resolver : ArgsDict → List α) (model : MModel α) (args : ArgsDict),
      (connection_resolver resolver model args).iterable
          = (if (resolver args).isEmpty then get_query model args else resolver args)
      ∧ (connection_resolver resolver model args).length
          = (connection_resolver resolver model args).iterable.length
      ∧ (connection_resolver resolver model args).edges
          = (connection_from_list_slice (connection_resolver resolver model args).iterable args 0
              ((connection_resolver resolver model args).iterable.length : Int)
              ((connection_resolver resolver model args).iterable.length : Int)).edges
      ∧ (connection_resolver resolver model args).pageInfo
          = (connection_from_list_slice (connection_resolver resolver model args).iterable args 0
              ((connection_resolver resolver model args).iterable.length : Int)
              ((connection_resolver resolver model args).iterable.length : Int)).pageInfo)
    ∧ (connection_resolver (fun _ => editorsModel.objects) editorsModel []).edges.length = 2
    ∧ (connection_resolver (fun _ => editorsModel.objects) editorsModel []).pageInfo.hasNextPage
        = false
    ∧ (connection_resolver (fun _ => editorsModel.objects) editorsModel []).pageInfo.hasPreviousPage
        = false
    ∧ (connection_resolver (fun _ => editorsModel.objects) editorsModel []).length = 2 := by
  exact ⟨fun α resolver model args => ⟨rfl, rfl, rfl, rfl⟩,
    by decide, by decide, by decide, by decide⟩

/-- C2: the upstream resolver's result is used when non-empty; exactly when
it is empty/falsy, the fallback store query `get_query` with the caller's
arguments is used instead, where `get_query` returns the filtered
collection when arguments are present and the whole collection otherwise. -/
theorem connection_resolver_resolver_first_then_get_query :
    ∀ (α : Type) (resolver : ArgsDict → List α) (model : MModel α) (args : ArgsDict),
      (connection_resolver resolver model args).iterable
          = (if (resolver args).isEmpty then get_query model args else resolver args)
      ∧ (args = [] → get_query model args = model.objects)
      ∧ (args ≠ [] → get_query model args
          = model.objects.filter (fun doc =>
              args.all (fun kv => model.fieldVal doc kv.1 == kv.2))) := by
  intro α resolver model args
  refine ⟨rfl, ?_, ?_⟩
  · intro h
    subst h
    rfl
  · intro h
    have hne : args.isEmpty = false := by
      cases args with
      | nil => exact absurd rfl h
      | cons x xs => rfl
    simp [get_query, hne]

/-- Witness for C2 at concrete inputs: an empty argument dict yields the
whole collection, a non-empty one yields the filtered collection. -/
theorem connection_resolver_resolver_first_then_get_query_witness :
    get_query editorsModel [] = editorsModel.objects
    ∧ get_query editorsModel [("first_name", PyVal.str "Penny Hardaway")]
        = editorsModel.objects.filter (fun doc =>
            [("first_name", PyVal.str "Penny Hardaway")].all
              (fun kv => editorsModel.fieldVal doc kv.1 == kv.2)) :=
  ⟨(connection_resolver_resolver_first_then_get_query String (fun _ => []) editorsModel
      []).2.1 rfl,
   (connection_resolver_resolver_first_then_get_query String (fun _ => []) editorsModel
      [("first_name", PyVal.str "Penny Hardaway")]).2.2 (by decide)⟩

end GrapheneMongo
